import Mathlib

/-!
Verification development for the ZkpSharp Stellar `proof-balance` contract.

Bytes are modelled as `Nat` values (< 256 where the source guarantees it);
byte strings as `List Nat`.  The Soroban host primitive `env.crypto().sha256`
is embedded as a full executable SHA-256 over byte lists.
-/

namespace ZkpSharp

/-- Truncation to a 32-bit word, as performed by `u32` arithmetic. -/
def w32 (x : Nat) : Nat := x % 4294967296

/-- 32-bit right rotation (input assumed < 2^32). -/
def rotr (n x : Nat) : Nat := w32 ((x >>> n) ||| (x <<< (32 - n)))

/-- 32-bit bitwise complement (input assumed < 2^32). -/
def bnot32 (x : Nat) : Nat := x ^^^ 4294967295

/-- The SHA-256 round constants (decimal). -/
def shaK : List Nat :=
  [1116352408, 1899447441, 3049323471, 3921009573, 961987163,
   1508970993, 2453635748, 2870763221, 3624381080, 310598401,
   607225278, 1426881987, 1925078388, 2162078206, 2614888103,
   3248222580, 3835390401, 4022224774, 264347078, 604807628,
   770255983, 1249150122, 1555081692, 1996064986, 2554220882,
   2821834349, 2952996808, 3210313671, 3336571891, 3584528711,
   113926993, 338241895, 666307205, 773529912, 1294757372,
   1396182291, 1695183700, 1986661051, 2177026350, 2456956037,
   2730485921, 2820302411, 3259730800, 3345764771, 3516065817,
   3600352804, 4094571909, 275423344, 430227734, 506948616,
   659060556, 883997877, 958139571, 1322822218, 1537002063,
   1747873779, 1955562222, 2024104815, 2227730452, 2361852424,
   2428436474, 2756734187, 3204031479, 3329325298]

/-- The eight 32-bit words of SHA-256 chaining state. -/
structure Sha256State where
  a : Nat
  b : Nat
  c : Nat
  d : Nat
  e : Nat
  f : Nat
  g : Nat
  h : Nat
deriving Repr, DecidableEq

/-- SHA-256 initial hash values (decimal). -/
def shaInit : Sha256State :=
  ⟨1779033703, 3144134277, 1013904242, 2773480762,
   1359893119, 2600822924, 528734635, 1541459225⟩

/-- SHA-256 message padding: append `0x80`, zero bytes up to 56 mod 64, then
the 8-byte big-endian bit length. -/
def shaPad (msg : List Nat) : List Nat :=
  let bitlen := msg.length * 8
  let zeros := (119 - msg.length % 64) % 64
  msg ++ [0x80] ++ List.replicate zeros 0 ++
    (List.range 8).map (fun i => (bitlen >>> (8 * (7 - i))) % 256)

/-- Split a byte list into 64-byte blocks. -/
def toBlocks (l : List Nat) : List (List Nat) :=
  if _h : l.length = 0 then []
  else
    l.take 64 :: toBlocks (l.drop 64)
termination_by l.length
decreasing_by simp [List.length_drop]; omega

/-- Message schedule: 16 big-endian words from the block, extended to 64. -/
def shaSchedule (block : List Nat) : List Nat :=
  let ws := (List.range 16).map (fun i =>
    w32 ((block.getD (4 * i) 0) <<< 24 ||| (block.getD (4 * i + 1) 0) <<< 16 |||
         (block.getD (4 * i + 2) 0) <<< 8 ||| block.getD (4 * i + 3) 0))
  (List.range 48).foldl (fun acc _ =>
    let n := acc.length
    let x15 := acc.getD (n - 15) 0
    let x2 := acc.getD (n - 2) 0
    let s0 := rotr 7 x15 ^^^ rotr 18 x15 ^^^ (x15 >>> 3)
    let s1 := rotr 17 x2 ^^^ rotr 19 x2 ^^^ (x2 >>> 10)
    acc ++ [w32 (acc.getD (n - 16) 0 + s0 + acc.getD (n - 7) 0 + s1)]) ws

/-- One SHA-256 round on the working variables. -/
def shaRound (w : List Nat) (s : Sha256State) (i : Nat) : Sha256State :=
  let S1 := rotr 6 s.e ^^^ rotr 11 s.e ^^^ rotr 25 s.e
  let ch := (s.e &&& s.f) ^^^ (bnot32 s.e &&& s.g)
  let temp1 := w32 (s.h + S1 + ch + shaK.getD i 0 + w.getD i 0)
  let S0 := rotr 2 s.a ^^^ rotr 13 s.a ^^^ rotr 22 s.a
  let maj := (s.a &&& s.b) ^^^ (s.a &&& s.c) ^^^ (s.b &&& s.c)
  let temp2 := w32 (S0 + maj)
  ⟨w32 (temp1 + temp2), s.a, s.b, s.c, w32 (s.d + temp1), s.e, s.f, s.g⟩

/-- SHA-256 compression of one 64-byte block into the chaining state. -/
def shaCompress (st : Sha256State) (block : List Nat) : Sha256State :=
  let w := shaSchedule block
  let t := (List.range 64).foldl (shaRound w) st
  ⟨w32 (st.a + t.a), w32 (st.b + t.b), w32 (st.c + t.c), w32 (st.d + t.d),
   w32 (st.e + t.e), w32 (st.f + t.f), w32 (st.g + t.g), w32 (st.h + t.h)⟩

/-- Big-endian bytes of one 32-bit word. -/
def wordBytes (x : Nat) : List Nat :=
  [(x >>> 24) % 256, (x >>> 16) % 256, (x >>> 8) % 256, x % 256]

/-- Serialise the chaining state as the 32-byte digest. -/
def stateBytes (s : Sha256State) : List Nat :=
  wordBytes s.a ++ wordBytes s.b ++ wordBytes s.c ++ wordBytes s.d ++
  wordBytes s.e ++ wordBytes s.f ++ wordBytes s.g ++ wordBytes s.h

/-- SHA-256 over a byte list, the embedding of `env.crypto().sha256`. -/
def sha256 (msg : List Nat) : List Nat :=
  stateBytes ((toBlocks (shaPad msg)).foldl shaCompress shaInit)

theorem stateBytes_length (s : Sha256State) : (stateBytes s).length = 32 := by
  simp [stateBytes, wordBytes]

theorem sha256_length (msg : List Nat) : (sha256 msg).length = 32 :=
  stateBytes_length _

/-- HMAC-SHA256 as written in `test.rs` (`compute_test_hmac`), which per its
doc comment matches the contract's `compute_hmac`: the key is copied byte by
byte, padded with zeros to the 64-byte block size, XORed with the inner/outer
pads, and hashed in two passes. -/
def compute_test_hmac (message key : List Nat) : List Nat :=
  let key_padded := (List.range 32).map (fun i => key.getD i 0) ++ List.replicate 32 0
  let inner_data := (List.range 64).map (fun i => key_padded.getD i 0 ^^^ 0x36) ++ message
  let inner_hash := sha256 inner_data
  let outer_data := (List.range 64).map (fun i => key_padded.getD i 0 ^^^ 0x5c) ++ inner_hash
  sha256 outer_data

/-- The keyed-hash formula as the spec states it: SHA-256 over the 0x5c-XORed
padded key followed by SHA-256 over the 0x36-XORed padded key and the message. -/
def hmacSpec (message key : List Nat) : List Nat :=
  let padded := key ++ List.replicate 32 0
  sha256 ((padded.map (fun x => x ^^^ 0x5c)) ++
    sha256 ((padded.map (fun x => x ^^^ 0x36)) ++ message))

/-- Modelled from the spec: `ZkpVerifier::secure_compare` is not under `src/`
(only its tests call it); spec §4.2 gives the algorithm: XOR corresponding
bytes, accumulate with bitwise OR, and test the accumulator at the end. -/
def secure_compare (a b : List Nat) : Bool :=
  (List.zipWith (fun x y => x ^^^ y) a b).foldl (fun acc d => acc ||| d) 0 == 0

/-- Instrumented variant of `secure_compare` that counts one accumulator
operation per byte position, to state the constant-operation-count property. -/
def secure_compare_trace (a b : List Nat) : Nat × Bool :=
  let st := (List.zipWith (fun x y => x ^^^ y) a b).foldl
    (fun (st : Nat × Nat) d => (st.1 + 1, st.2 ||| d)) (0, 0)
  (st.1, st.2 == 0)

/-- Modelled from the spec: `ZkpVerifier::verify_proof` is not under `src/`
(only its tests); spec §4.3: reject salt shorter than 16 bytes, hash
`data || salt` with the keyed-hash engine, compare in constant time. -/
def verify_proof (proof data salt key : List Nat) : Bool :=
  if salt.length < 16 then false
  else secure_compare proof (compute_test_hmac (data ++ salt) key)

/-- ASCII decimal digit test. -/
def isDigitByte (c : Nat) : Bool := 48 ≤ c && c ≤ 57

/-- Modelled from the spec: the DecimalParser is not under `src/` (only the
balance tests exercise it); spec §4.4: accept one or more ASCII digits with at
most one dot and no other character, returning the magnitude as an integer
numerator together with the decimal scale, and signal failure with `none`. -/
def parseDecimal (s : List Nat) : Option (Nat × Nat) :=
  if (∀ c ∈ s, isDigitByte c = true ∨ c = 46) ∧
      s.countP (fun c => c == 46) ≤ 1 ∧
      1 ≤ s.countP (fun c => isDigitByte c) then
    let st := s.foldl (fun (st : Nat × Bool × Nat) c =>
      if c == 46 then (st.1, true, st.2.2)
      else (st.1 * 10 + (c - 48), st.2.1, if st.2.1 then st.2.2 + 1 else st.2.2))
      (0, false, 0)
    some (st.1, st.2.2)
  else none

/-- Exact comparison `x ≥ y` of parsed amounts by cross-multiplication, as
spec §4.4 prescribes (numerator over a power-of-ten scale). -/
def amountGe (x y : Nat × Nat) : Bool :=
  decide (y.1 * 10 ^ x.2 ≤ x.1 * 10 ^ y.2)

/-- Modelled from the spec: `ZkpVerifier::verify_balance_proof` is not under
`src/` (only its tests); spec §4.5: verify the proof over `balance_data`,
parse both decimal strings, and compare balance against required. -/
def verify_balance_proof (proof balance_data required_data salt key : List Nat) : Bool :=
  if verify_proof proof balance_data salt key then
    match parseDecimal balance_data, parseDecimal required_data with
    | some b, some r => amountGe b r
    | _, _ => false
  else false

/-- Recursion underlying batch verification: conjunction of per-entry
verification across the three parallel lists. -/
def verify_batch_go (key : List Nat) :
    List (List Nat) → List (List Nat) → List (List Nat) → Bool
  | [], [], [] => true
  | p :: ps, d :: ds, s :: ss => verify_proof p d s key && verify_batch_go key ps ds ss
  | _, _, _ => false

/-- Modelled from the spec: `ZkpVerifier::verify_batch` is not under `src/`
(only its tests); spec §4.6: require the three lists to have equal length,
then AND the single-proof verifications; an empty batch is vacuously valid. -/
def verify_batch (proofs data_items salts : List (List Nat)) (key : List Nat) : Bool :=
  if proofs.length = data_items.length ∧ data_items.length = salts.length then
    verify_batch_go key proofs data_items salts
  else false

/-- One event published to the Soroban environment by `lib.rs`. -/
inductive Event where
  | proofEv (p : List Nat)
  | keyEv (k : List Nat)
  | resultEv (s : String)
deriving Repr, DecidableEq

namespace ZkpBalanceVerifier

/-- The shipped contract entry point `ZkpBalanceVerifier::verify_balance` from
`lib.rs`: it publishes the proof, the key and a result tag to the environment
event log (modelled as explicit state passed in and returned) and returns
whether the two byte strings have equal length. -/
def verify_balance (events : List Event) (proof verifying_key : List Nat) :
    List Event × Bool :=
  let ev := events ++ [Event.proofEv proof] ++ [Event.keyEv verifying_key]
  if proof.length == verifying_key.length then
    (ev ++ [Event.resultEv "success"], true)
  else
    (ev ++ [Event.resultEv "failure"], false)

end ZkpBalanceVerifier

/-- The 32-byte test key from `test.rs` (`create_test_key`). -/
def testKey : List Nat :=
  [0x55, 0x75, 0x43, 0x32, 0xf6, 0x05, 0xd5, 0x14, 0xb1, 0x65, 0x8c, 0x16, 0x2f,
   0x87, 0x86, 0xf7, 0x79, 0xb4, 0x24, 0xa7, 0x4e, 0xf4, 0xa6, 0xd7, 0x42, 0x7d,
   0x26, 0x86, 0x0f, 0x84, 0x5c, 0x77]

/-- The 16-byte test salt from `test.rs` (`create_test_salt`): bytes 0..15. -/
def testSalt : List Nat := List.range 16

/-! ## Helper lemmas -/

theorem lor_eq_zero_iff (a b : Nat) : a ||| b = 0 ↔ a = 0 ∧ b = 0 := by
  constructor
  · intro h
    have hbit : ∀ i, (a.testBit i || b.testBit i) = false := by
      intro i
      have := congrArg (fun x => Nat.testBit x i) h
      simpa [Nat.testBit_or, Nat.zero_testBit] using this
    constructor
    · apply Nat.eq_of_testBit_eq
      intro i
      have := hbit i
      simp only [Bool.or_eq_false_iff] at this
      simp [this.1, Nat.zero_testBit]
    · apply Nat.eq_of_testBit_eq
      intro i
      have := hbit i
      simp only [Bool.or_eq_false_iff] at this
      simp [this.2, Nat.zero_testBit]
  · rintro ⟨rfl, rfl⟩
    rfl

theorem foldl_lor_eq_zero (l : List Nat) (a : Nat) :
    l.foldl (fun acc d => acc ||| d) a = 0 ↔ a = 0 ∧ ∀ x ∈ l, x = 0 := by
  induction l generalizing a with
  | nil => simp
  | cons x xs ih =>
    simp only [List.foldl_cons, ih, lor_eq_zero_iff, List.mem_cons]
    constructor
    · rintro ⟨⟨ha, hx⟩, hrest⟩
      exact ⟨ha, fun y hy => hy.elim (fun h => h ▸ hx) (hrest y)⟩
    · rintro ⟨ha, hall⟩
      exact ⟨⟨ha, hall x (Or.inl rfl)⟩, fun y hy => hall y (Or.inr hy)⟩

theorem zipWith_xor_self (a : List Nat) :
    List.zipWith (fun x y => x ^^^ y) a a = List.map (fun _ => 0) a := by
  induction a with
  | nil => simp
  | cons x xs ih => simp [Nat.xor_self, ih]

theorem secure_compare_self (a : List Nat) : secure_compare a a = true := by
  simp only [secure_compare, zipWith_xor_self, beq_iff_eq, foldl_lor_eq_zero]
  simp

theorem zipWith_xor_all_zero (a : List Nat) :
    ∀ b : List Nat, a.length = b.length →
      ((∀ x ∈ List.zipWith (fun x y => x ^^^ y) a b, x = 0) ↔ a = b) := by
  induction a with
  | nil =>
    intro b h
    cases b with
    | nil => simp
    | cons y ys => simp at h
  | cons x xs ih =>
    intro b h
    cases b with
    | nil => simp at h
    | cons y ys =>
      have hlen : xs.length = ys.length := by simpa using h
      simp [List.forall_mem_cons, Nat.xor_eq_zero, ih ys hlen]

theorem secure_compare_eq_iff (a b : List Nat) (h : a.length = b.length) :
    secure_compare a b = true ↔ a = b := by
  simp only [secure_compare, beq_iff_eq, foldl_lor_eq_zero, true_and]
  exact zipWith_xor_all_zero a b h

theorem foldl_count (l : List Nat) (c acc : Nat) :
    l.foldl (fun (st : Nat × Nat) d => (st.1 + 1, st.2 ||| d)) (c, acc) =
      (c + l.length, l.foldl (fun acc d => acc ||| d) acc) := by
  induction l generalizing c acc with
  | nil => simp
  | cons x xs ih =>
    simp only [List.foldl_cons, ih, List.length_cons]
    rw [Prod.mk.injEq]
    exact ⟨by omega, rfl⟩

theorem range_map_getD {α : Type} (l : List α) (d : α) :
    (List.range l.length).map (fun i => l.getD i d) = l := by
  apply List.ext_getElem
  · simp
  · intro i h1 h2
    simp [List.getD_eq_getElem?_getD, List.getElem?_eq_getElem h2]

theorem compute_test_hmac_eq_spec (message key : List Nat) (h : key.length = 32) :
    compute_test_hmac message key = hmacSpec message key := by
  have hkp : (List.range 32).map (fun i => key.getD i 0) = key := by
    conv_lhs => rw [← h]
    exact range_map_getD key 0
  have hkpl : (key ++ List.replicate 32 0).length = 64 := by simp [h]
  have hmap : ∀ c : Nat,
      (List.range 64).map (fun i => (key ++ List.replicate 32 0).getD i 0 ^^^ c) =
        (key ++ List.replicate 32 0).map (fun x => x ^^^ c) := by
    intro c
    have h1 : ((List.range 64).map (fun i => (key ++ List.replicate 32 0).getD i 0)).map
        (fun x => x ^^^ c) =
        (List.range 64).map (fun i => (key ++ List.replicate 32 0).getD i 0 ^^^ c) := by
      simp [List.map_map, Function.comp]
    rw [← h1]
    congr 1
    conv_lhs => rw [← hkpl]
    exact range_map_getD (key ++ List.replicate 32 0) 0
  simp only [compute_test_hmac, hmacSpec, hkp]
  rw [hmap 0x36, hmap 0x5c]

theorem verify_batch_go_iff (key : List Nat) (ps ds ss : List (List Nat))
    (h1 : ps.length = ds.length) (h2 : ds.length = ss.length) :
    verify_batch_go key ps ds ss = true ↔
      ∀ i < ps.length,
        verify_proof (ps.getD i []) (ds.getD i []) (ss.getD i []) key = true := by
  induction ps generalizing ds ss with
  | nil =>
    cases ds with
    | nil =>
      cases ss with
      | nil => simp [verify_batch_go]
      | cons s ss => simp at h2
    | cons d ds => simp at h1
  | cons p ps ih =>
    cases ds with
    | nil => simp at h1
    | cons d ds =>
      cases ss with
      | nil => simp at h2
      | cons s ss =>
        rw [verify_batch_go, Bool.and_eq_true,
          ih ds ss (by simpa using h1) (by simpa using h2)]
        constructor
        · rintro ⟨hp, hrest⟩ i hi
          cases i with
          | zero => simpa using hp
          | succ j =>
            have := hrest j (by simpa using hi)
            simpa using this
        · intro hall
          refine ⟨by simpa using hall 0 (by simp), fun j hj => ?_⟩
          have := hall (j + 1) (by simpa using hj)
          simpa using this

/-! ## Claim theorems -/

/-- C1: the balance verification entry point returns true iff the proof
verifies over `balance_data` (salt at least 16 bytes, keyed hash of
`balance_data ++ salt` under the key), both decimal strings parse, and the
parsed balance is at least the parsed required amount. -/
theorem C1_verify_balance_proof_correct
    (proof balance_data required_data salt key : List Nat) :
    (verify_balance_proof proof balance_data required_data salt key = true ↔
      (verify_proof proof balance_data salt key = true ∧
        ∃ b r, parseDecimal balance_data = some b ∧
          parseDecimal required_data = some r ∧ amountGe b r = true)) ∧
    (verify_proof proof balance_data salt key = true ↔
      (16 ≤ salt.length ∧
        secure_compare proof (compute_test_hmac (balance_data ++ salt) key) = true)) := by
  constructor
  · by_cases hv : verify_proof proof balance_data salt key = true
    · cases hpb : parseDecimal balance_data with
      | none => simp [verify_balance_proof, hv, hpb]
      | some b =>
        cases hpr : parseDecimal required_data with
        | none => simp [verify_balance_proof, hv, hpb, hpr]
        | some r => simp [verify_balance_proof, hv, hpb, hpr]
    · simp [verify_balance_proof, hv]
  · by_cases hs : salt.length < 16
    · rw [verify_proof, if_pos hs]
      simp only [Bool.false_eq_true, false_iff]
      rintro ⟨h16, _⟩
      omega
    · rw [verify_proof, if_neg hs]
      exact ⟨fun hc => ⟨by omega, hc⟩, fun hc => hc.2⟩

/-- C2: the shipped `ZkpBalanceVerifier::verify_balance` returns true iff
the proof and the verifying key are byte strings of equal length; the byte
contents never affect the result, and any 32-byte proof is accepted against
any 32-byte key. -/
theorem C2_verify_balance_length_only
    (events ev1 ev2 : List Event) (proof pk proof2 pk2 : List Nat) :
    ((ZkpBalanceVerifier.verify_balance events proof pk).2 = true ↔
      proof.length = pk.length) ∧
    (proof.length = proof2.length → pk.length = pk2.length →
      (ZkpBalanceVerifier.verify_balance ev1 proof pk).2 =
        (ZkpBalanceVerifier.verify_balance ev2 proof2 pk2).2) ∧
    (proof.length = 32 → pk.length = 32 →
      (ZkpBalanceVerifier.verify_balance events proof pk).2 = true) := by
  refine ⟨?_, ?_, ?_⟩
  · by_cases h : proof.length = pk.length <;>
      simp [ZkpBalanceVerifier.verify_balance, h]
  · intro h1 h2
    by_cases h : proof.length = pk.length
    · have h2' : proof2.length = pk2.length := by omega
      simp [ZkpBalanceVerifier.verify_balance, h, h2']
    · have h2' : ¬ proof2.length = pk2.length := by omega
      simp [ZkpBalanceVerifier.verify_balance, h, h2']
  · intro h1 h2
    simp [ZkpBalanceVerifier.verify_balance, h1, h2]

/-- C2 witness: the all-zero 32-byte proof is accepted against the 32-byte
test key. -/
theorem C2_verify_balance_length_only_witness :
    (List.replicate 32 0).length = 32 ∧ testKey.length = 32 ∧
      (ZkpBalanceVerifier.verify_balance [] (List.replicate 32 0) testKey).2 = true :=
  ⟨by decide, by decide,
    (C2_verify_balance_length_only [] [] [] (List.replicate 32 0) testKey [] []).2.2
      (by decide) (by decide)⟩

/-- C3: for a 32-byte key the keyed-hash engine produces exactly
SHA-256 over the 0x5c-padded key followed by SHA-256 over the 0x36-padded
key and the message, and the digest is 32 bytes. -/
theorem C3_hmac_matches_spec (message key : List Nat) (h : key.length = 32) :
    compute_test_hmac message key = hmacSpec message key ∧
      (compute_test_hmac message key).length = 32 :=
  ⟨compute_test_hmac_eq_spec message key h, sha256_length _⟩

/-- C3 witness: instantiation at the test key and the message bytes 1..5. -/
theorem C3_hmac_matches_spec_witness :
    testKey.length = 32 ∧
      (compute_test_hmac [1, 2, 3, 4, 5] testKey = hmacSpec [1, 2, 3, 4, 5] testKey ∧
        (compute_test_hmac [1, 2, 3, 4, 5] testKey).length = 32) :=
  ⟨by decide, C3_hmac_matches_spec [1, 2, 3, 4, 5] testKey (by decide)⟩

/-- C4: verifying the digest produced by the keyed-hash engine over
`data ++ salt` under the same key, salt (at least 16 bytes) and data
succeeds. -/
theorem C4_verify_proof_roundtrip (key salt data : List Nat)
    (_hk : key.length = 32) (hs : 16 ≤ salt.length) :
    verify_proof (compute_test_hmac (data ++ salt) key) data salt key = true := by
  rw [verify_proof, if_neg (by omega)]
  exact secure_compare_self _

/-- C4 witness: round trip at the test key, the 16-byte test salt and the
data bytes 1..5. -/
theorem C4_verify_proof_roundtrip_witness :
    testKey.length = 32 ∧ 16 ≤ testSalt.length ∧
      verify_proof (compute_test_hmac ([1, 2, 3, 4, 5] ++ testSalt) testKey)
        [1, 2, 3, 4, 5] testSalt testKey = true :=
  ⟨by decide, by decide,
    C4_verify_proof_roundtrip testKey testSalt [1, 2, 3, 4, 5] (by decide) (by decide)⟩

/-- C5: a salt shorter than 16 bytes makes proof verification return false
(even for the correct digest), while a salt of 16 bytes or more undergoes
normal verification against the keyed hash. -/
theorem C5_verify_proof_salt_policy (proof data salt key : List Nat) :
    (salt.length < 16 → verify_proof proof data salt key = false) ∧
    (16 ≤ salt.length → verify_proof proof data salt key =
      secure_compare proof (compute_test_hmac (data ++ salt) key)) := by
  constructor
  · intro h
    rw [verify_proof, if_pos h]
  · intro h
    rw [verify_proof, if_neg (by omega)]

/-- C5 witness: with an 8-byte salt even the correct digest of
`data ++ salt` is rejected. -/
theorem C5_verify_proof_salt_policy_witness :
    (List.range 8).length < 16 ∧
      verify_proof
        (compute_test_hmac ([1, 2, 3, 4, 5] ++ List.range 8) testKey)
        [1, 2, 3, 4, 5] (List.range 8) testKey = false :=
  ⟨by decide,
    (C5_verify_proof_salt_policy
      (compute_test_hmac ([1, 2, 3, 4, 5] ++ List.range 8) testKey)
      [1, 2, 3, 4, 5] (List.range 8) testKey).1 (by decide)⟩

/-- C6: on 32-byte inputs `secure_compare` returns true exactly on equal
inputs: it accepts every pair `(x, x)` and rejects every distinct pair,
including pairs differing only in the last byte. -/
theorem C6_secure_compare_correct (x y : List Nat)
    (hx : x.length = 32) (hy : y.length = 32) :
    secure_compare x y = true ↔ x = y :=
  secure_compare_eq_iff x y (hx.trans hy.symm)

/-- C6 witness: two 32-byte strings that differ only in the last byte are
distinguished, and comparison is decided exactly by equality. -/
theorem C6_secure_compare_correct_witness :
    (List.replicate 32 0xAB).length = 32 ∧
      (List.replicate 31 0xAB ++ [0xAC]).length = 32 ∧
      (secure_compare (List.replicate 32 0xAB) (List.replicate 31 0xAB ++ [0xAC]) = true ↔
        List.replicate 32 0xAB = List.replicate 31 0xAB ++ [0xAC]) :=
  ⟨by decide, by decide,
    C6_secure_compare_correct (List.replicate 32 0xAB)
      (List.replicate 31 0xAB ++ [0xAC]) (by decide) (by decide)⟩

/-- C7: the instrumented digest comparison performs exactly one accumulator
operation per byte position — 32 operations for any pair of 32-byte inputs,
independent of where they diverge — and computes the same answer as
`secure_compare`; it never short-circuits. -/
theorem C7_secure_compare_constant_ops (a b : List Nat)
    (ha : a.length = 32) (hb : b.length = 32) :
    (secure_compare_trace a b).1 = 32 ∧
      (secure_compare_trace a b).2 = secure_compare a b := by
  constructor
  · simp only [secure_compare_trace]
    rw [foldl_count]
    simp [List.length_zipWith, ha, hb]
  · simp only [secure_compare_trace, secure_compare]
    rw [foldl_count]

/-- C7 witness: inputs diverging at the first byte and inputs diverging at
the last byte both take exactly 32 accumulator operations. -/
theorem C7_secure_compare_constant_ops_witness :
    ([100] ++ List.replicate 31 0xAB).length = 32 ∧
      (List.replicate 32 0xAB).length = 32 ∧
      (secure_compare_trace ([100] ++ List.replicate 31 0xAB)
          (List.replicate 32 0xAB)).1 = 32 ∧
      (secure_compare_trace ([100] ++ List.replicate 31 0xAB)
          (List.replicate 32 0xAB)).2 =
        secure_compare ([100] ++ List.replicate 31 0xAB) (List.replicate 32 0xAB) :=
  ⟨by decide, by decide,
    (C7_secure_compare_constant_ops ([100] ++ List.replicate 31 0xAB)
      (List.replicate 32 0xAB) (by decide) (by decide)).1,
    (C7_secure_compare_constant_ops ([100] ++ List.replicate 31 0xAB)
      (List.replicate 32 0xAB) (by decide) (by decide)).2⟩

/-- C8: the decimal parser returns `none` (without any fault) whenever the
input has a character outside the digits and the dot, more than one dot, or
no digit at all; in particular the strings written "-", ".", "", "12.3.4"
are rejected while "1000.0" and "500.0" parse. -/
theorem C8_parseDecimal_failure_policy (s : List Nat) :
    ((¬ (∀ c ∈ s, isDigitByte c = true ∨ c = 46)) ∨
        1 < s.countP (fun c => c == 46) ∨
        s.countP (fun c => isDigitByte c) = 0 →
      parseDecimal s = none) ∧
    parseDecimal [45] = none ∧
    parseDecimal [46] = none ∧
    parseDecimal [] = none ∧
    parseDecimal [49, 50, 46, 51, 46, 52] = none ∧
    (parseDecimal [49, 48, 48, 48, 46, 48]).isSome = true ∧
    (parseDecimal [53, 48, 48, 46, 48]).isSome = true := by
  refine ⟨?_, by decide, by decide, by decide, by decide, by decide, by decide⟩
  intro hbad
  rw [parseDecimal, if_neg]
  rintro ⟨h1, h2, h3⟩
  rcases hbad with h | h | h
  · exact h h1
  · omega
  · omega

/-- C8 witness: the input consisting of the single byte of "-" violates the
character policy and is rejected. -/
theorem C8_parseDecimal_failure_policy_witness :
    parseDecimal [45] = none :=
  (C8_parseDecimal_failure_policy [45]).1 (by decide)

/-- C9: batch verification over three equal-length lists is the conjunction
of the single-proof verifications at each index, returns false when the
lengths disagree, and accepts the empty batch. -/
theorem C9_verify_batch_correct (proofs data_items salts : List (List Nat))
    (key : List Nat) :
    (proofs.length = data_items.length ∧ data_items.length = salts.length →
      (verify_batch proofs data_items salts key = true ↔
        ∀ i < proofs.length,
          verify_proof (proofs.getD i []) (data_items.getD i [])
            (salts.getD i []) key = true)) ∧
    (¬ (proofs.length = data_items.length ∧ data_items.length = salts.length) →
      verify_batch proofs data_items salts key = false) ∧
    verify_batch [] [] [] key = true := by
  refine ⟨?_, ?_, ?_⟩
  · rintro ⟨h1, h2⟩
    rw [verify_batch, if_pos ⟨h1, h2⟩]
    exact verify_batch_go_iff key proofs data_items salts h1 h2
  · intro h
    rw [verify_batch, if_neg h]
  · rfl

/-- C9 witness: a batch whose lists have mismatched lengths is rejected. -/
theorem C9_verify_batch_correct_witness :
    ¬ (([[0]] : List (List Nat)).length = ([] : List (List Nat)).length ∧
        ([] : List (List Nat)).length = ([] : List (List Nat)).length) ∧
      verify_batch [[0]] [] [] testKey = false :=
  ⟨by decide, (C9_verify_batch_correct [[0]] [] [] testKey).2.1 (by decide)⟩

/-- C10 counterexample: calling the shipped entry point with an empty prior
event log leaves a non-empty log — the call publishes events, an observable
side effect beyond its return value, contradicting the claim at the concrete
input of two empty byte strings. -/
theorem C10_verify_balance_writes_events :
    (ZkpBalanceVerifier.verify_balance [] [] []).1 ≠ [] := by
  simp [ZkpBalanceVerifier.verify_balance]

/-- C10 (amended): the boolean result of the shipped entry point is a
deterministic function of its byte-string arguments alone — the environment
state is never read — and its only side effect is appending to the event log
a sequence of events determined by the arguments. -/
theorem C10_verify_balance_deterministic (events ev2 : List Event)
    (proof pk : List Nat) :
    (ZkpBalanceVerifier.verify_balance events proof pk).2 =
      (ZkpBalanceVerifier.verify_balance ev2 proof pk).2 ∧
    (ZkpBalanceVerifier.verify_balance events proof pk).1 =
      events ++ (ZkpBalanceVerifier.verify_balance [] proof pk).1 := by
  by_cases h : proof.length = pk.length <;>
    simp [ZkpBalanceVerifier.verify_balance, h]

end ZkpSharp
